import Mathlib

/-
  Shallow embedding of m7-js-lib-primitive-log:
  the Worker ("Stream") engine from src/src/Worker.js together with the
  normalizers / record model from the utils module (src/unnamed/part_013).

  Modelling conventions:
  * JS numbers are integers or canonical fractions plus NaN / ±Infinity
    (`JSNum`); machine floats do not occur in the verified claims (timestamps
    and limits are integers).
  * The impure clock `() => number` is determinized as `Nat → ℤ` (its value at
    the n-th invocation) together with a `ticks` counter in the Worker state.
  * Hooks and filter predicates are pure functions that may raise, modelled as
    `Except Unit _`; a JS `try { ... } catch { ... }` becomes a `match` on the
    `Except` result.  The worker self-reference argument and the print context
    passed to hooks are not modelled (the state is kept first-order).
  * A best-effort deep clone of an immutable value is observationally the
    value itself, so `cloneBestEffort` is the identity on bodies.
-/

namespace M7Log

/-- A JavaScript number: a finite integer, a finite non-integer (kept as a
canonical fraction with denominator ≥ 2, built only through `mkFin`), NaN, or
a signed infinity.  Mathlib's `ℚ` is avoided because its arithmetic does not
reduce in the kernel. -/
inductive JSNum where
  | int (n : ℤ)
  | frac (num : ℤ) (den : ℕ)
  | nan
  | posInf
  | negInf
deriving DecidableEq, Repr

/-- Build a canonical finite number from a numerator and positive denominator. -/
def mkFin (n : ℤ) (d : ℕ) : JSNum :=
  let g := Nat.gcd n.natAbs d
  let n' := n / (g : ℤ)
  let d' := d / g
  if d' = 1 then .int n' else .frac n' d'

/-- Is this number finite (JS `Number.isFinite`)? -/
def JSNum.isFiniteNum : JSNum → Bool
  | .int _ => true
  | .frac _ _ => true
  | _ => false

/-- Is this number a finite integer (JS `Number.isInteger`)?  Canonical
fractions have denominator ≥ 2, hence are never integers. -/
def JSNum.isIntNum : JSNum → Bool
  | .int _ => true
  | _ => false

/-- Numerator/denominator view of a finite number. -/
def JSNum.toPair : JSNum → ℤ × ℕ
  | .int n => (n, 1)
  | .frac n d => (n, d)
  | _ => (0, 0)

/-- JS `<` on numbers: false whenever NaN is involved; finite values compare
by cross-multiplication. -/
def jsNumLt (a b : JSNum) : Bool :=
  match a, b with
  | .nan, _ => false
  | _, .nan => false
  | .negInf, .negInf => false
  | .negInf, _ => true
  | _, .negInf => false
  | .posInf, _ => false
  | _, .posInf => true
  | a, b =>
      let p := a.toPair
      let q := b.toPair
      decide (p.1 * (q.2 : ℤ) < q.1 * (p.2 : ℤ))

/-- JS `<=` on numbers (false whenever NaN is involved). -/
def jsNumLe (a b : JSNum) : Bool :=
  match a, b with
  | .nan, _ => false
  | _, .nan => false
  | .negInf, _ => true
  | _, .negInf => false
  | _, .posInf => true
  | .posInf, _ => false
  | a, b =>
      let p := a.toPair
      let q := b.toPair
      decide (p.1 * (q.2 : ℤ) ≤ q.1 * (p.2 : ℤ))

/-- A JavaScript primitive value (objects/arrays are modelled separately where
they can occur, e.g. payloads and workspaces). -/
inductive JSVal where
  | undefined
  | null
  | bool (b : Bool)
  | num (n : JSNum)
  | str (s : String)
deriving DecidableEq, Repr

/-- JS falsiness: `undefined`, `null`, `false`, `0`, `NaN`, `""`. -/
def jsFalsy : JSVal → Bool
  | .undefined => true
  | .null => true
  | .bool b => !b
  | .num (.int n) => n = 0
  | .num (.frac n _) => n = 0
  | .num .nan => true
  | .num _ => false
  | .str s => s = ""

def jsTruthy (v : JSVal) : Bool := !jsFalsy v

/-- JS `String.prototype.trim`, implemented on the character list so that it
reduces in the kernel (`Char.isWhitespace` approximates the JS whitespace
class). -/
def jsStrTrim (s : String) : String :=
  ⟨((s.data.dropWhile Char.isWhitespace).reverse.dropWhile Char.isWhitespace).reverse⟩

/-- JS `toUpperCase`, on the character list (kernel-reducible). -/
def jsToUpper (s : String) : String := ⟨s.data.map Char.toUpper⟩

/-- JS `toLowerCase`, on the character list (kernel-reducible). -/
def jsToLower (s : String) : String := ⟨s.data.map Char.toLower⟩

/-- Numeric value of a digit string (most significant first). -/
def natOfDigits (l : List Char) : ℕ :=
  l.foldl (fun a c => a * 10 + (c.toNat - '0'.toNat)) 0

/-- Parse an unsigned decimal literal (`digits`, `digits.digits`, `.digits`,
`digits.`) into numerator and positive denominator.  Exponent and hex forms
are not modelled (no claim uses them). -/
def parseUnsignedDec (s : List Char) : Option (ℕ × ℕ) :=
  let intPart := s.takeWhile Char.isDigit
  let rest := s.dropWhile Char.isDigit
  match rest with
  | [] => if intPart.isEmpty then none else some (natOfDigits intPart, 1)
  | '.' :: frac =>
      if frac.all Char.isDigit && !(intPart.isEmpty && frac.isEmpty) then
        some (natOfDigits intPart * 10 ^ frac.length + natOfDigits frac,
              10 ^ frac.length)
      else none
  | _ => none

/-- JS `Number(string)` coercion (decimal forms; otherwise NaN). -/
def jsParseNumber (s : String) : JSNum :=
  let t := jsStrTrim s
  if t = "" then .int 0
  else if t = "Infinity" || t = "+Infinity" then .posInf
  else if t = "-Infinity" then .negInf
  else
    match t.toList with
    | '-' :: r => (match parseUnsignedDec r with
                   | some p => mkFin (-(p.1 : ℤ)) p.2
                   | none => .nan)
    | '+' :: r => (match parseUnsignedDec r with
                   | some p => mkFin (p.1 : ℤ) p.2
                   | none => .nan)
    | r => (match parseUnsignedDec r with
            | some p => mkFin (p.1 : ℤ) p.2
            | none => .nan)

/-- JS `Number(value)` coercion. -/
def jsToNumber : JSVal → JSNum
  | .undefined => .nan
  | .null => .int 0
  | .bool b => .int (if b then 1 else 0)
  | .num n => n
  | .str s => jsParseNumber s

/-- JS `String(value)` coercion.  Non-integer numbers are rendered as
`num/den` (a modelling approximation of decimal float formatting; no theorem
relies on the rendering of non-integer numbers). -/
def jsToString : JSVal → String
  | .undefined => "undefined"
  | .null => "null"
  | .bool b => if b then "true" else "false"
  | .num .nan => "NaN"
  | .num .posInf => "Infinity"
  | .num .negInf => "-Infinity"
  | .num (.int n) => toString n
  | .num (.frac n d) => toString n ++ "/" ++ toString d
  | .str s => s

/-- JS strict equality `===` on primitives (NaN is not equal to itself). -/
def jsStrictEq (a b : JSVal) : Bool :=
  if a = .num .nan || b = .num .nan then false else a = b

/-- Modelled from the spec: `constants.js` (the CONSOLE_LEVEL enum) is imported
by the source but is not among the provided source files; §4.1 of the spec
defines the six-level ordinal scale OFF(0) < ERROR(1) < WARN(2) < INFO(3) <
LOG(4) < ALL(5).  String keys are looked up by enum-key name. -/
def consoleLevelOf (key : String) : Option ℤ :=
  if key = "OFF" then some 0
  else if key = "ERROR" then some 1
  else if key = "WARN" then some 2
  else if key = "INFO" then some 3
  else if key = "LOG" then some 4
  else if key = "ALL" then some 5
  else none

/-- `utils._normalizeConsoleLevel`: falsy ↦ OFF, `true` ↦ ALL, finite numbers
clamped into [OFF, ALL] (non-integers included, as in the source), strings
looked up case-insensitively, else OFF. -/
def normalizeConsoleLevel (v : JSVal) : JSNum :=
  if jsFalsy v then .int 0
  else if v = .bool true then .int 5
  else
    match v with
    | .num n =>
        if n.isFiniteNum then
          (if jsNumLt n (.int 0) then .int 0
           else if jsNumLt (.int 5) n then .int 5
           else n)
        else .int 0
    | .str s => .int ((consoleLevelOf (jsToUpper s)).getD 0)
    | _ => .int 0

/-- `utils._normalizeLogMax`: falsy / `"0"` ↦ 0 (unbounded); positive integers
pass through; non-numeric, non-integer, or negative values throw. -/
def normalizeLogMax (v : JSVal) : Except String ℕ :=
  if jsFalsy v then .ok 0
  else if v = .str "0" then .ok 0
  else
    match v with
    | .num n =>
        (match n with
         | .int q =>
             if q < 0 then .error "[log] invalid max value (negative)"
             else .ok q.toNat
         | .frac _ _ => .error "[log] invalid max value (must be integer)"
         | _ => .error "[log] invalid max value (not numeric)")
    | .str s =>
        (match jsParseNumber s with
         | .int q =>
             if q < 0 then .error "[log] invalid max value (negative)"
             else .ok q.toNat
         | .frac _ _ => .error "[log] invalid max value (must be integer)"
         | _ => .error "[log] invalid max value (not numeric)")
    | _ => .error "[log] invalid max value (not numeric)"

/-- `utils.validateBucketName`: trimmed non-empty strings pass, finite numbers
are coerced to strings, everything else fails (throwing when `die`, otherwise
returning the null sentinel). -/
def validateBucketName (v : JSVal) (die : Bool) : Except String (Option String) :=
  match v with
  | .str s =>
      let t := jsStrTrim s
      if t = "" then
        (if die then .error "bucket name must be a non-empty string or finite number"
         else .ok none)
      else .ok (some t)
  | .num n =>
      if n.isFiniteNum then .ok (some (jsToString (.num n)))
      else if die then .error "bucket name must be a non-empty string or finite number"
      else .ok none
  | _ =>
      if die then .error "bucket name must be a non-empty string or finite number"
      else .ok none

/-- `utils.levelToConsoleLevel`: `String(level || "log").toLowerCase()` mapped
to the severity ordinal. -/
def levelToConsoleLevel (level : JSVal) : ℤ :=
  let lv := jsToLower (jsToString (if jsFalsy level then .str "log" else level))
  if lv = "error" then 1
  else if lv = "warn" || lv = "warning" then 2
  else if lv = "info" then 3
  else 4

/-- Record header: system-owned metadata built by `utils.makeRecord`.  A field
of type `Option _` is `none` exactly when the corresponding JS property is not
set on the header object. -/
structure Header where
  «at» : ℤ
  source : Option JSVal
  level : Option JSVal
  event : Option JSVal
  trace : Option JSVal
  lastAt : Option ℤ
  delta : Option ℤ
deriving DecidableEq, Repr

/-- A payload passed to `emit` / `makeRecord`: either a plain key-valued object
(which becomes `body` directly) or any other value (wrapped as `{value: v}`). -/
inductive Payload where
  | obj (fields : List (String × JSVal))
  | prim (v : JSVal)
deriving DecidableEq, Repr

/-- A stored record: `{ header, body }`. -/
structure Record where
  header : Header
  body : List (String × JSVal)
deriving DecidableEq, Repr

/-- Best-effort deep clone (`utils.cloneBestEffort`).  In this pure value model
a deep copy is observationally the value itself; the source's fallback chain
(structuredClone → injected deepCopy → original reference) never throws and
has no further observable behavior here. -/
def cloneBestEffort (b : List (String × JSVal)) : List (String × JSVal) := b

/-- JS `x != null` filter: a present-but-nullish value counts as absent. -/
def notNullish : Option JSVal → Option JSVal
  | some v => if v = .undefined || v = .null then none else some v
  | none => none

/-- Context for `utils.makeRecord`.  `lastAt = none` models a nullish previous
timestamp (the `ctx.lastAt != null` guard); `clone` is the boolean the caller
computed (`emit` passes `opts.clone === true` or the worker default). -/
structure RecordCtx where
  source : Option JSVal := none
  level : Option JSVal := none
  event : Option JSVal := none
  trace : Option JSVal := none
  lastAt : Option ℤ := none
  clone : Bool := false

/-- `utils.makeRecord`: normalize a payload into `{ header, body }`.  The
single `clock()` invocation inside the source is determinized by passing the
sampled value `now`. -/
def makeRecord (now : ℤ) (entry : Payload) (ctx : RecordCtx) : Record :=
  let body := match entry with
    | .obj fields => fields
    | .prim v => [("value", v)]
  let ldpair : Option ℤ × Option ℤ :=
    match ctx.lastAt with
    | some t => (some t, some (now - t))
    | none => (none, none)
  { header :=
      { «at» := now
        source := notNullish ctx.source
        level := notNullish ctx.level
        event := notNullish ctx.event
        trace := notNullish ctx.trace
        lastAt := ldpair.1
        delta := ldpair.2 }
    body := if ctx.clone then cloneBestEffort body else body }

/-- `utils.shouldPrint`: resolve the policy from the `console` value the caller
put into the context (`emit` always passes one) and compare against the level
ordinal of the record. -/
def shouldPrint (r : Record) (consoleVal : JSVal) : Bool :=
  let policy := normalizeConsoleLevel consoleVal
  if policy = .int 0 then false
  else if policy = .int 5 then true
  else jsNumLe (.int (levelToConsoleLevel (r.header.level.getD .undefined))) policy

/-- A hook (accept-hook / print-hook / default printer): a function of the
record and the workspace that may raise.  The raised value and the return
value are both discarded by the source, so `Except Unit Unit` suffices. -/
def HookFn : Type := Record → List (String × JSVal) → Except Unit Unit

/-- A raw configuration value for a hook option: either an actual function or
any other JS value (to be resolved by `utils._getFunction`). -/
inductive HookVal where
  | fn (f : HookFn)
  | raw (v : JSVal)

/-- A raw configuration value for the clock option. -/
inductive ClockVal where
  | fn (f : ℕ → ℤ)
  | raw (v : JSVal)

/-- A raw configuration value for the workspace option: a plain key-valued
object, an array, or any other value. -/
inductive WsVal where
  | obj (fields : List (String × JSVal))
  | arr
  | prim (v : JSVal)

/-- Ambient environment: the determinized platform clock (`Date.now`) and the
optional externally injected callable-resolution service (`lib.func.get`). -/
structure Env where
  dateNow : ℕ → ℤ
  funcGet : Option (JSVal → Option HookFn) := none

/-- `utils._getFunction`: falsy ↦ null, function ↦ itself, otherwise try the
injected resolution service and throw when it is absent or fails. -/
def getFunction (env : Env) (v : HookVal) (label : String) :
    Except String (Option HookFn) :=
  match v with
  | .fn f => .ok (some f)
  | .raw w =>
      if jsFalsy w then .ok none
      else
        match env.funcGet with
        | some g =>
            (match g w with
             | some f => .ok (some f)
             | none => .error ("[log] invalid " ++ label ++
                 ": expected function or resolvable reference"))
        | none => .error ("[log] invalid " ++ label ++
            ": expected function or resolvable reference")

/-- `utils._getClock`: falsy ↦ `Date.now`, function ↦ itself, otherwise throw. -/
def getClock (env : Env) (v : ClockVal) : Except String (ℕ → ℤ) :=
  match v with
  | .fn f => .ok f
  | .raw w =>
      if jsFalsy w then .ok env.dateNow
      else .error "[log] invalid clock: expected function"

/-- `Worker._resolveWorkspace`: a plain object becomes the workspace, anything
else resets it to `{}`. -/
def resolveWorkspace : WsVal → List (String × JSVal)
  | .obj fields => fields
  | _ => []

/-- The Worker ("Stream") state.  `ticks` is the number of clock invocations
so far (the determinization index for the impure clock; not a source field). -/
structure Worker where
  name : String
  max : ℕ
  enabled : Bool
  console : JSNum
  onEvent : Option HookFn
  onPrint : Option HookFn
  clock : ℕ → ℤ
  ticks : ℕ
  clone : Bool
  userWorkspace : List (String × JSVal)
  events : List Record
  cursor : ℕ
  count : ℕ
  lastAt : ℤ

/-- Construction options for the Worker constructor.  `none` models an absent
key (for `workspace` the own-key check `"workspace" in opts` matters). -/
structure Opts where
  name : Option JSVal := none
  max : Option JSVal := none
  enabled : Option JSVal := none
  console : Option JSVal := none
  onEvent : Option HookVal := none
  onPrint : Option HookVal := none
  clock : Option ClockVal := none
  clone : Option JSVal := none
  workspace : Option WsVal := none

/-- The Worker constructor.  Note that `name` is NOT passed through
`validateBucketName`: the source coerces it with `String(opts.name || "default")`. -/
def mkWorker (env : Env) (opts : Opts) : Except String Worker := do
  let nameVal := opts.name.getD .undefined
  let name := if jsFalsy nameVal then "default" else jsToString nameVal
  let max ← normalizeLogMax (opts.max.getD .undefined)
  let enabled := opts.enabled ≠ some (.bool false)
  let console := normalizeConsoleLevel (opts.console.getD .undefined)
  let onEvent ← getFunction env (opts.onEvent.getD (.raw .undefined)) "onEvent"
  let onPrint ← getFunction env (opts.onPrint.getD (.raw .undefined)) "onPrint"
  let clock ← getClock env (opts.clock.getD (.raw .undefined))
  let clone := opts.clone = some (.bool true)
  let userWorkspace := match opts.workspace with
    | some wv => resolveWorkspace wv
    | none => []
  .ok { name := name, max := max, enabled := enabled, console := console,
        onEvent := onEvent, onPrint := onPrint, clock := clock, ticks := 0,
        clone := clone, userWorkspace := userWorkspace,
        events := [], cursor := 0, count := 0, lastAt := 0 }

/-- `Worker.setConsoleLevel`. -/
def setConsoleLevel (w : Worker) (v : JSVal) : Worker :=
  { w with console := normalizeConsoleLevel v }

/-- `Worker.truncate`: enforce `max` against current storage; keeps the most
recent `max` records and re-aligns the ring cursor — but only when the stored
size strictly exceeds `max` (otherwise it returns without touching the cursor). -/
def truncate (w : Worker) : Worker :=
  if w.max = 0 then w
  else
    let len := w.events.length
    if len ≤ w.max then w
    else
      let ev := w.events.drop (len - w.max)
      { w with events := ev, cursor := ev.length % w.max }

/-- `Worker.setLogMax`: normalize the new bound, then truncate. -/
def setLogMax (w : Worker) (v : JSVal) : Except String Worker := do
  let m ← normalizeLogMax v
  .ok (truncate { w with max := m })

/-- `Worker.setEnabled`. -/
def setEnabled (w : Worker) (flag : JSVal) : Worker :=
  { w with enabled := jsTruthy flag }

/-- JS array index assignment `a[i] = x`: overwrites in range, appends at the
end.  (Indices beyond the length would create holes in JS; they are modelled
as an append and do not occur for reachable workers, where cursor ≤ length.) -/
def jsArraySet (l : List Record) (i : ℕ) (a : Record) : List Record :=
  if i < l.length then l.set i a else l ++ [a]

/-- `Worker._pushUnlimited`. -/
def pushUnlimited (w : Worker) (r : Record) : Worker :=
  { w with events := w.events ++ [r] }

/-- `Worker._pushRing`.  The source's invariant guard (`max <= 0` throws) is
unreachable here: `_push` only calls this when `max ≠ 0`, and `max : ℕ`. -/
def pushRing (w : Worker) (r : Record) : Worker :=
  if w.events.length < w.max then
    let ev := w.events ++ [r]
    { w with events := ev, cursor := ev.length % w.max }
  else
    { w with events := jsArraySet w.events w.cursor r,
             cursor := (w.cursor + 1) % w.max }

/-- `Worker._dispatchOnEvent`: best-effort hook dispatch; the `try`/`catch`
swallows a raised value, so both outcomes produce `()`. -/
def dispatchOnEvent (w : Worker) (r : Record) : Unit :=
  match w.onEvent with
  | none => ()
  | some f =>
      match f r w.userWorkspace with
      | .ok _ => ()
      | .error _ => ()

/-- `Worker._push`: drop when disabled, bump the lifetime counter, store into
unlimited or ring storage, then fire the accept-hook best-effort.  (A falsy
`record` argument cannot occur: records are objects.) -/
def push (w : Worker) (r : Record) : Option Record × Worker :=
  if !w.enabled then (none, w)
  else
    let w := { w with count := w.count + 1 }
    let w := if w.max = 0 then pushUnlimited w r else pushRing w r
    let _ := dispatchOnEvent w r
    (some r, w)

/-- `Worker.clear`: empties storage, resets cursor and lifetime counter, and
intentionally does NOT reset `lastAt`. -/
def clear (w : Worker) : Worker :=
  { w with events := [], cursor := 0, count := 0 }

/-- Snapshot returned by `Worker.stats`. -/
structure Stats where
  name : String
  enabled : Bool
  max : ℕ
  size : ℕ
  count : ℕ
  ring : Bool
deriving DecidableEq, Repr

/-- `Worker.stats`. -/
def stats (w : Worker) : Stats :=
  { name := w.name, enabled := w.enabled, max := w.max,
    size := w.events.length, count := w.count, ring := decide (0 < w.max) }

/-- A runtime configuration patch; `none` models an absent key. -/
structure Patch where
  enabled : Option JSVal := none
  max : Option JSVal := none
  console : Option JSVal := none
  onEvent : Option HookVal := none
  onPrint : Option HookVal := none
  clock : Option ClockVal := none
  workspace : Option WsVal := none

/-- `Worker.configure`: a non-object patch (modelled as `none`) is a hard
error; otherwise each recognized key is applied only if present. -/
def configure (env : Env) (w : Worker) (patch : Option Patch) :
    Except String Worker := do
  match patch with
  | none => .error "[log] Worker.configure expects an object"
  | some p => do
      let w := match p.enabled with
        | some v => { w with enabled := jsTruthy v }
        | none => w
      let w ← match p.max with
        | some v => setLogMax w v
        | none => .ok w
      let w := match p.console with
        | some v => setConsoleLevel w v
        | none => w
      let w ← match p.onEvent with
        | some v => do
            let f ← getFunction env v "onEvent"
            .ok { w with onEvent := f }
        | none => .ok w
      let w ← match p.onPrint with
        | some v => do
            let f ← getFunction env v "onPrint"
            .ok { w with onPrint := f }
        | none => .ok w
      let w ← match p.clock with
        | some v => do
            let c ← getClock env v
            .ok { w with clock := c }
        | none => .ok w
      let w := match p.workspace with
        | some v => { w with userWorkspace := resolveWorkspace v }
        | none => w
      .ok w

/-- Options for `Worker.emit`.  `none` models an absent key; the source checks
presence for `clone` (`"clone" in opts`), nullishness for `level`, strict
`=== false` for `print`, and `!== undefined` for `console`. -/
structure EmitOpts where
  level : Option JSVal := none
  event : Option JSVal := none
  trace : Option JSVal := none
  clone : Option JSVal := none
  print : Option JSVal := none
  console : Option JSVal := none

/-- `Worker.emit`: gate on `enabled`, build the record (threading `lastAt`),
unconditionally update `lastAt`, store via `_push`, then best-effort print. -/
def emit (w : Worker) (data : Payload) (opts : EmitOpts) :
    Option Record × Worker :=
  if !w.enabled then (none, w)
  else
    let level := match opts.level with
      | some v => if v = .undefined || v = .null then JSVal.str "log" else v
      | none => JSVal.str "log"
    let now := w.clock w.ticks
    let w := { w with ticks := w.ticks + 1 }
    let record := makeRecord now data
      { source := some (.str w.name)
        level := some level
        event := opts.event
        trace := opts.trace
        lastAt := some w.lastAt
        clone := match opts.clone with
          | some v => v = .bool true
          | none => w.clone }
    let w := { w with lastAt := record.header.«at» }
    let res := push w record
    match res.1 with
    | none => (none, res.2)
    | some stored =>
        let w := res.2
        let doPrint := opts.print ≠ some (.bool false)
        let consolePolicy : JSVal := match opts.console with
          | some v => if v = .undefined then .num w.console else v
          | none => .num w.console
        let _ :=
          if doPrint && shouldPrint stored consolePolicy then
            -- printer (onPrint or the default printer) invoked in try/catch;
            -- both outcomes are discarded (console output is external)
            match w.onPrint with
            | some f =>
                (match f stored w.userWorkspace with
                 | .ok _ => ()
                 | .error _ => ())
            | none => ()
          else ()
        (some stored, w)

/-- A value on the right-hand side of a filter key: a predicate function
(which may raise) or a plain value compared with strict equality. -/
inductive FilterVal where
  | fn (p : JSVal → Record → Except Unit Bool)
  | val (v : JSVal)

/-- A filter object for `Worker.get`: the two special options plus the other
own keys in object iteration order. -/
structure Filter where
  limit : Option JSVal := none
  since : Option JSVal := none
  keys : List (String × FilterVal) := []

/-- The raw argument of `Worker.get`: an object, or any non-object value
(coerced to the empty filter). -/
inductive FilterArg where
  | obj (f : Filter)
  | nonObj (v : JSVal)

/-- Key routing of `Worker.get`: explicit `header.` / `body.` prefixes target
that section literally; bare keys go to the header iff on the known-field
allowlist, otherwise to the body.  Returns (isHeader, property name). -/
def keyTarget (key : String) : Bool × String :=
  if key.startsWith "header." then (true, key.drop 7)
  else if key.startsWith "body." then (false, key.drop 5)
  else if key = "at" || key = "source" || key = "level" || key = "event"
          || key = "trace" then (true, key)
  else (false, key)

/-- Property lookup on a header object (only the keys `makeRecord` can set
exist; every other property reads as `undefined`). -/
def headerGet (h : Header) (prop : String) : JSVal :=
  if prop = "at" then .num (.int h.«at»)
  else if prop = "source" then h.source.getD .undefined
  else if prop = "level" then h.level.getD .undefined
  else if prop = "event" then h.event.getD .undefined
  else if prop = "trace" then h.trace.getD .undefined
  else if prop = "lastAt" then
    (h.lastAt.map (fun q => JSVal.num (.int q))).getD .undefined
  else if prop = "delta" then
    (h.delta.map (fun q => JSVal.num (.int q))).getD .undefined
  else .undefined

/-- Property lookup on a body object. -/
def bodyGet (b : List (String × JSVal)) (prop : String) : JSVal :=
  ((b.find? (fun kv => kv.1 = prop)).map (fun kv => kv.2)).getD .undefined

/-- The targeted field of a record for a routed key. -/
def fieldOf (rec : Record) (isHeader : Bool) (prop : String) : JSVal :=
  if isHeader then headerGet rec.header prop else bodyGet rec.body prop

/-- One key-based predicate of `Worker.get`: a callable is invoked as
`(value, record)` with exceptions treated as a non-match; a plain value is
compared with strict equality. -/
def predOf (key : String) (expected : FilterVal) (rec : Record) : Bool :=
  let t := keyTarget key
  let value := fieldOf rec t.1 t.2
  match expected with
  | .fn p =>
      (match p value rec with
       | .ok b => b
       | .error _ => false)
  | .val v => jsStrictEq value v

/-- The list of key-based predicates built by `Worker.get`: `limit` / `since`
and undefined expected values are skipped. -/
def buildPreds (keys : List (String × FilterVal)) : List (Record → Bool) :=
  keys.foldr
    (fun kv acc =>
      if kv.1 = "limit" || kv.1 = "since" then acc
      else if (match kv.2 with | .val .undefined => true | _ => false) then acc
      else predOf kv.1 kv.2 :: acc)
    []

/-- The record test applied by `Worker.get`'s single `filter` pass: the
`since` lower bound on `header.at`, then every key-based predicate.  (The
`!rec` falsy guard cannot fire: stored records are objects, and `header.at`
is always a finite number in this model.) -/
def recPass (since : Option JSNum) (preds : List (Record → Bool)) (rec : Record) :
    Bool :=
  (match since with
   | some s => !jsNumLt (.int rec.header.«at») s
   | none => true)
  && preds.all (fun f => f rec)

/-- Chronological materialization: a full ring buffer is spliced from the
write cursor, anything else is returned as stored. -/
def chronList (w : Worker) : List Record :=
  if 0 < w.max && w.events.length = w.max then
    w.events.drop w.cursor ++ w.events.take w.cursor
  else w.events

/-- `Worker.get`: coerce a non-object filter to `{}`, validate `limit`,
resolve `since`, materialize chronologically, filter, then keep the most
recent `limit` entries. -/
def get (w : Worker) (inFilter : FilterArg) : Except String (List Record) := do
  let filter := match inFilter with
    | .obj f => f
    | .nonObj _ => ({} : Filter)
  let limit : Option ℕ ← match filter.limit with
    | some v =>
        (match jsToNumber v with
         | .int q =>
             if q < 0 then .error "[log] invalid limit"
             else .ok (some q.toNat)
         | _ => .error "[log] invalid limit")
    | none => .ok none
  if limit = some 0 then return []
  let since : Option JSNum := match filter.since with
    | some (.num n) => if n.isFiniteNum then some n else none
    | _ => none
  let list := chronList w
  let preds := buildPreds filter.keys
  let out := list.filter (recPass since preds)
  let out := match limit with
    | some l => if 0 < l && l < out.length then out.drop (out.length - l) else out
    | none => out
  return out

/-- The last `k` entries of a list, in order. -/
def lastN (k : ℕ) (l : List Record) : List Record := l.drop (l.length - k)

/-- Query semantics as worded by the spec (for the refinement claim about
`limit` handling): a `limit` that is not a non-negative integer is a hard
error; `limit = 0` short-circuits to an empty result; otherwise the `since`
and key-based predicate filters are applied to the chronological list and, if
`limit` is set, only the most recent `limit` entries (the tail) are kept. -/
def querySpec (w : Worker) (f : Filter) : Except String (List Record) :=
  let filtered :=
    (chronList w).filter
      (recPass
        (match f.since with
         | some (.num n) => if n.isFiniteNum then some n else none
         | _ => none)
        (buildPreds f.keys))
  match f.limit with
  | some v =>
      (match jsToNumber v with
       | .int q =>
           if 0 ≤ q then
             (if q.toNat = 0 then .ok [] else .ok (lastN q.toNat filtered))
           else .error "[log] invalid limit"
       | _ => .error "[log] invalid limit")
  | none => .ok filtered

/-- One `emit` call with default options (used to run emission sequences). -/
def emitStep (w : Worker) (p : Payload) : Option Record × Worker :=
  emit w p {}

/-- Run a sequence of `emit` calls, keeping the final worker state. -/
def runEmits (w : Worker) (ps : List Payload) : Worker :=
  ps.foldl (fun w p => (emitStep w p).2) w

/-- The records returned by a sequence of `emit` calls, in emission order
(dropped calls contribute nothing). -/
def emittedRecords (w : Worker) (ps : List Payload) : List Record :=
  match ps with
  | [] => []
  | p :: rest =>
      match emitStep w p with
      | (some r, w') => r :: emittedRecords w' rest
      | (none, w') => emittedRecords w' rest

/-- Decidable equality for `Except` results (used to evaluate concrete runs). -/
instance {ε α : Type} [DecidableEq ε] [DecidableEq α] : DecidableEq (Except ε α) :=
  fun x y =>
    match x, y with
    | .ok a, .ok b =>
        if h : a = b then .isTrue (by rw [h])
        else .isFalse (by intro hh; injection hh; contradiction)
    | .error a, .error b =>
        if h : a = b then .isTrue (by rw [h])
        else .isFalse (by intro hh; injection hh; contradiction)
    | .ok _, .error _ => .isFalse (by intro hh; injection hh)
    | .error _, .ok _ => .isFalse (by intro hh; injection hh)

/-- The effective level of an `emit` call: `opts.level != null ? opts.level : "log"`. -/
def emitLevel (o : EmitOpts) : JSVal :=
  match o.level with
  | some v => if v = .undefined || v = .null then JSVal.str "log" else v
  | none => JSVal.str "log"

/-- The record an enabled `emit` call builds (the `makeRecord` invocation of
`Worker.emit`, with the clock sampled at the current tick). -/
def emitRec (w : Worker) (p : Payload) (o : EmitOpts) : Record :=
  makeRecord (w.clock w.ticks) p
    { source := some (.str w.name)
      level := some (emitLevel o)
      event := o.event
      trace := o.trace
      lastAt := some w.lastAt
      clone := match o.clone with
        | some v => v = .bool true
        | none => w.clone }

/-- The worker state an enabled `emit` call leaves behind: tick consumed,
`lastAt` updated, lifetime counter bumped, record stored. -/
def emitWrk (w : Worker) (p : Payload) (o : EmitOpts) : Worker :=
  let r := emitRec w p o
  let w1 := { w with ticks := w.ticks + 1, lastAt := r.header.«at»,
                     count := w.count + 1 }
  if w1.max = 0 then pushUnlimited w1 r else pushRing w1 r

/-- All non-function fields of a worker (hooks and the clock are functions and
have no decidable equality; every claim about state preservation is stated on
this projection). -/
def stateOf (w : Worker) :=
  (w.name, w.max, w.enabled, w.console, w.clone, w.userWorkspace,
   w.events, w.cursor, w.count, w.lastAt, w.ticks)

/-- Pipeline stage views of `Worker.configure` (names for the inline matches
of `configure`, used to decompose its `do` chain in proofs). -/
def stageEnabled (p : Patch) (w : Worker) : Worker :=
  match p.enabled with
  | some v => { w with enabled := jsTruthy v }
  | none => w

def stageMax (p : Patch) (w : Worker) : Except String Worker :=
  match p.max with
  | some v => setLogMax w v
  | none => .ok w

def stageConsole (p : Patch) (w : Worker) : Worker :=
  match p.console with
  | some v => setConsoleLevel w v
  | none => w

def stageOnEvent (env : Env) (p : Patch) (w : Worker) : Except String Worker :=
  match p.onEvent with
  | some v => do
      let f ← getFunction env v "onEvent"
      .ok { w with onEvent := f }
  | none => .ok w

def stageOnPrint (env : Env) (p : Patch) (w : Worker) : Except String Worker :=
  match p.onPrint with
  | some v => do
      let f ← getFunction env v "onPrint"
      .ok { w with onPrint := f }
  | none => .ok w

def stageClock (env : Env) (p : Patch) (w : Worker) : Except String Worker :=
  match p.clock with
  | some v => do
      let c ← getClock env v
      .ok { w with clock := c }
  | none => .ok w

def stageWs (p : Patch) (w : Worker) : Worker :=
  match p.workspace with
  | some v => { w with userWorkspace := resolveWorkspace v }
  | none => w

/-- Concrete environment for test runs: the platform clock counts invocations. -/
def defaultEnv : Env := { dateNow := fun n => (n : ℤ) }

/-- Concrete clock for test runs: the n-th reading is n. -/
def testClock : ℕ → ℤ := fun n => (n : ℤ)

/-- Concrete clock for test runs, offset by 5. -/
def shiftClock : ℕ → ℤ := fun n => (n : ℤ) + 5

/-- A freshly constructed worker with bound `k` and the test clock (the value
`mkWorker` produces for `{ max: k, clock: testClock }`). -/
def freshWorker (k : ℕ) : Worker :=
  { name := "default", max := k, enabled := true, console := .int 0,
    onEvent := none, onPrint := none, clock := testClock, ticks := 0,
    clone := false, userWorkspace := [], events := [], cursor := 0,
    count := 0, lastAt := 0 }

/-- A disabled worker. -/
def disabledWorker : Worker := { freshWorker 0 with enabled := false }

/-- A fresh unbounded worker with the shifted clock. -/
def freshShiftWorker : Worker := { freshWorker 0 with clock := shiftClock }

def pA : Payload := .prim (.str "A")
def pB : Payload := .prim (.str "B")
def pC : Payload := .prim (.str "C")

/-- The ring/chronology simulation invariant for a worker with a fixed bound
`k` that has emitted exactly the records `L` since construction: either the
ring is still filling (storage is `L` itself and the cursor sits at its end),
or it is full and splicing at the cursor recovers the last `k` records. -/
def RingChron (k : ℕ) (w : Worker) (L : List Record) : Prop :=
  w.enabled = true ∧ w.max = k ∧
  ((w.events = L ∧ L.length < k ∧ w.cursor = L.length) ∨
   (w.events.length = k ∧ w.cursor < k ∧ k ≤ L.length ∧
    w.events.drop w.cursor ++ w.events.take w.cursor = lastN k L))

/- ------------------------------------------------------------------ -/
/- Helper lemmas                                                       -/
/- ------------------------------------------------------------------ -/

lemma emit_disabled (w : Worker) (p : Payload) (o : EmitOpts)
    (h : w.enabled = false) : emit w p o = (none, w) := by
  simp [emit, h]

lemma emit_enabled_eq (w : Worker) (p : Payload) (o : EmitOpts)
    (h : w.enabled = true) :
    emit w p o = (some (emitRec w p o), emitWrk w p o) := by
  simp only [emit, emitRec, emitWrk, emitLevel, push, h]
  rfl

lemma emitRec_header (w : Worker) (p : Payload) (o : EmitOpts) :
    (emitRec w p o).header.«at» = w.clock w.ticks ∧
    (emitRec w p o).header.lastAt = some w.lastAt ∧
    (emitRec w p o).header.delta = some (w.clock w.ticks - w.lastAt) := by
  simp [emitRec, makeRecord]

lemma makeRecord_delta (now : ℤ) (entry : Payload) (ctx : RecordCtx) (t : ℤ)
    (hl : (makeRecord now entry ctx).header.lastAt = some t) :
    (makeRecord now entry ctx).header.delta =
      some ((makeRecord now entry ctx).header.«at» - t) := by
  cases hc : ctx.lastAt with
  | none => simp [makeRecord, hc] at hl
  | some u =>
      simp [makeRecord, hc] at hl ⊢
      omega

/- ------------------------------------------------------------------ -/
/- Claim theorems                                                      -/
/- ------------------------------------------------------------------ -/

/-- C7: a disabled stream's `emit` returns null, stores nothing, fires no
hooks, and leaves the entire stream state (including `stats` and the
last-accepted timestamp) unchanged. -/
theorem disabled_emit_is_noop (w : Worker) (p : Payload) (o : EmitOpts)
    (h : w.enabled = false) :
    emit w p o = (none, w) ∧ stats (emit w p o).2 = stats w ∧
    (emit w p o).2.lastAt = w.lastAt := by
  have he : emit w p o = (none, w) := by simp [emit, h]
  exact ⟨he, by rw [he], by rw [he]⟩

/-- C7 witness: a concrete disabled worker. -/
theorem disabled_emit_is_noop_witness :
    emit disabledWorker pA {} = (none, disabledWorker) ∧
    stats (emit disabledWorker pA {}).2 = stats disabledWorker ∧
    (emit disabledWorker pA {}).2.lastAt = disabledWorker.lastAt :=
  disabled_emit_is_noop disabledWorker pA {} rfl

/-- C3 (code bug): on a freshly constructed stream with no previously
accepted record (`stats().count = 0`), the very first record already carries
`header.lastAt = 0` and a `header.delta`, because `_lastAt` is initialized to
`0` and `makeRecord` only checks `ctx.lastAt != null` (`0 != null` is true in
JS).  The claim and the repo's record documentation say `lastAt`/`delta` are
absent when no previous record exists. -/
theorem first_record_carries_lastAt :
    mkWorker defaultEnv { clock := some (.fn shiftClock) } = .ok freshShiftWorker
    ∧ (stats freshShiftWorker).count = 0
    ∧ (emitStep freshShiftWorker pA).1.map
        (fun r => (r.header.lastAt, r.header.delta, r.header.«at»))
      = some (some 0, some 5, 5) := by
  refine ⟨rfl, ?_, ?_⟩ <;> decide

/-- C1 (code bug): growing the bound of a full ring via `setLogMax` does not
re-rotate storage, so `query`/`get` no longer returns records chronologically.
Concretely: a stream built with limit 2 emits A, B, C (at times 0, 1, 2);
after `setLogMax(3)` the query returns the records with timestamps `[2, 1]` —
newest first — although they were emitted in the order `[0, 1, 2]`. -/
theorem grow_limit_breaks_chronology :
    mkWorker defaultEnv
        { max := some (.num (.int 2)), clock := some (.fn testClock) }
      = .ok (freshWorker 2)
    ∧ (emittedRecords (freshWorker 2) [pA, pB, pC]).map (fun r => r.header.«at»)
      = [0, 1, 2]
    ∧ (setLogMax (runEmits (freshWorker 2) [pA, pB, pC]) (.num (.int 3))).map
        (fun w => (get w (.obj {})).map (fun l => l.map (fun r => r.header.«at»)))
      = .ok (.ok [2, 1]) := by
  refine ⟨rfl, ?_, ?_⟩ <;> decide

/-- C10 (code bug): the ring invariant `cursor ∈ [0, limit)` and
`size ≤ limit` is not preserved by `setLogMax`.  A stream built with limit 5
emits 3 records (cursor = 3); `setLogMax(3)` keeps the stale cursor 3 with the
new limit 3, and the next emit writes at index 3, growing storage to 4 > 3. -/
theorem shrink_limit_breaks_ring_invariant :
    mkWorker defaultEnv
        { max := some (.num (.int 5)), clock := some (.fn testClock) }
      = .ok (freshWorker 5)
    ∧ (setLogMax (runEmits (freshWorker 5) [pA, pB, pC]) (.num (.int 3))).map
        (fun w => (w.cursor, w.max, w.events.length)) = .ok (3, 3, 3)
    ∧ ¬ (3 : ℕ) < 3
    ∧ (setLogMax (runEmits (freshWorker 5) [pA, pB, pC]) (.num (.int 3))).map
        (fun w => ((emitStep w pA).2.events.length, (emitStep w pA).2.max))
      = .ok (4, 3) := by
  refine ⟨rfl, ?_, ?_, ?_⟩ <;> decide

/-- C4: `header.delta = header.at - header.lastAt` whenever `header.lastAt`
is present; `clear` empties storage, resets cursor and lifetime counter, and
preserves the last-accepted timestamp, so the first record emitted after a
clear still derives `lastAt` (and hence `delta`) from the pre-clear
last-accepted timestamp. -/
theorem delta_roundtrip_and_clear (w : Worker) (now : ℤ) (entry : Payload)
    (ctx : RecordCtx) (t : ℤ) (p : Payload)
    (hl : (makeRecord now entry ctx).header.lastAt = some t)
    (hen : w.enabled = true) :
    (makeRecord now entry ctx).header.delta =
      some ((makeRecord now entry ctx).header.«at» - t)
    ∧ (clear w).events = [] ∧ (clear w).cursor = 0 ∧ (clear w).count = 0
    ∧ (clear w).lastAt = w.lastAt
    ∧ (emitStep (clear w) p).1.map (fun r => r.header.lastAt)
        = some (some w.lastAt)
    ∧ (emitStep (clear w) p).1.map (fun r => r.header.delta)
        = some (some ((clear w).clock (clear w).ticks - w.lastAt)) := by
  have hcen : (clear w).enabled = true := hen
  have he := emit_enabled_eq (clear w) p {} hcen
  have hh := emitRec_header (clear w) p {}
  refine ⟨makeRecord_delta now entry ctx t hl, rfl, rfl, rfl, rfl, ?_, ?_⟩
  · rw [emitStep, he]
    simp [hh.2.1]
    rfl
  · rw [emitStep, he]
    simp [hh.2.2]
    rfl

/-- C4 witness: concrete instantiation (fresh worker, `ctx.lastAt = 3`). -/
theorem delta_roundtrip_and_clear_witness :
    (makeRecord 7 pA { lastAt := some 3 }).header.delta =
      some ((makeRecord 7 pA { lastAt := some 3 }).header.«at» - 3)
    ∧ (clear (freshWorker 0)).events = [] ∧ (clear (freshWorker 0)).cursor = 0
    ∧ (clear (freshWorker 0)).count = 0
    ∧ (clear (freshWorker 0)).lastAt = (freshWorker 0).lastAt
    ∧ (emitStep (clear (freshWorker 0)) pB).1.map (fun r => r.header.lastAt)
        = some (some (freshWorker 0).lastAt)
    ∧ (emitStep (clear (freshWorker 0)) pB).1.map (fun r => r.header.delta)
        = some (some ((clear (freshWorker 0)).clock (clear (freshWorker 0)).ticks
                       - (freshWorker 0).lastAt)) :=
  delta_roundtrip_and_clear (freshWorker 0) 7 pA { lastAt := some 3 } 3 pB
    (by decide) rfl


lemma lastN_of_le (k : ℕ) (L : List Record) (h : L.length ≤ k) : lastN k L = L := by
  unfold lastN
  have : L.length - k = 0 := by omega
  simp [this]

lemma lastN_append_one (k : ℕ) (L : List Record) (r : Record) (hk : 0 < k)
    (h : k ≤ L.length) : lastN k (L ++ [r]) = (lastN k L).tail ++ [r] := by
  unfold lastN
  rw [List.drop_append_eq_append_drop]
  simp only [List.length_append, List.length_cons, List.length_nil]
  have h2 : L.length + (0 + 1) - k - L.length = 0 := by omega
  have h3 : L.length + (0 + 1) - k = (L.length - k) + 1 := by omega
  rw [h2, h3, ← List.tail_drop]
  simp

lemma take_set_succ (ev : List Record) (c : ℕ) (r : Record) (hc : c < ev.length) :
    (ev.set c r).take (c + 1) = ev.take c ++ [r] := by
  rw [List.set_eq_take_cons_drop r hc, List.take_append_eq_append_take,
      List.length_take]
  have h1 : min c ev.length = c := by omega
  have h2 : c + 1 - c = 1 := by omega
  rw [h1, h2]
  simp [List.take_take]

lemma drop_set_succ (ev : List Record) (c : ℕ) (r : Record) (hc : c < ev.length) :
    (ev.set c r).drop (c + 1) = ev.drop (c + 1) := by
  rw [List.set_eq_take_cons_drop r hc, List.drop_append_eq_append_drop,
      List.length_take]
  have h1 : min c ev.length = c := by omega
  have h2 : c + 1 - c = 1 := by omega
  rw [h1, h2]
  simp

lemma ring_rotate_set (ev : List Record) (c : ℕ) (r : Record) (hc : c < ev.length) :
    (ev.set c r).drop ((c + 1) % ev.length) ++ (ev.set c r).take ((c + 1) % ev.length)
      = (ev.drop c ++ ev.take c).tail ++ [r] := by
  have hr : (ev.drop c ++ ev.take c).tail = ev.drop (c + 1) ++ ev.take c := by
    rw [List.drop_eq_getElem_cons hc, List.cons_append, List.tail_cons]
  rcases Nat.lt_or_ge (c + 1) ev.length with hlt | hge
  · rw [Nat.mod_eq_of_lt hlt, drop_set_succ ev c r hc, take_set_succ ev c r hc,
        hr, List.append_assoc]
  · have hlen : ev.length = c + 1 := by omega
    have hnil : ev.drop (c + 1) = [] := by
      rw [← hlen]; exact List.drop_length ev
    rw [hlen, Nat.mod_self, hr, hnil]
    simp only [List.drop_zero, List.take_zero, List.append_nil, List.nil_append]
    rw [List.set_eq_take_cons_drop r hc, hnil]

lemma emitWrk_ring (w : Worker) (p : Payload) (o : EmitOpts) (hk : w.max ≠ 0) :
    emitWrk w p o =
      pushRing { w with ticks := w.ticks + 1,
                        lastAt := (emitRec w p o).header.«at»,
                        count := w.count + 1 } (emitRec w p o) := by
  simp [emitWrk, hk]

lemma pushRing_fill (w : Worker) (r : Record) (h : w.events.length < w.max) :
    (pushRing w r).events = w.events ++ [r] ∧
    (pushRing w r).cursor = (w.events.length + 1) % w.max ∧
    (pushRing w r).max = w.max ∧ (pushRing w r).enabled = w.enabled := by
  rw [pushRing, if_pos h]
  refine ⟨rfl, ?_, rfl, rfl⟩
  simp [List.length_append]

lemma pushRing_over (w : Worker) (r : Record) (h1 : ¬ w.events.length < w.max)
    (h2 : w.cursor < w.events.length) :
    (pushRing w r).events = w.events.set w.cursor r ∧
    (pushRing w r).cursor = (w.cursor + 1) % w.max ∧
    (pushRing w r).max = w.max ∧ (pushRing w r).enabled = w.enabled := by
  rw [pushRing, if_neg h1, jsArraySet, if_pos h2]
  exact ⟨rfl, rfl, rfl, rfl⟩

lemma ringChron_step (k : ℕ) (hk : 0 < k) (w : Worker) (L : List Record)
    (p : Payload) (h : RingChron k w L) :
    (emitStep w p).1 = some (emitRec w p {}) ∧
    RingChron k (emitStep w p).2 (L ++ [emitRec w p {}]) := by
  obtain ⟨hen, hmax, hcase⟩ := h
  have he := emit_enabled_eq w p {} hen
  have hkne : w.max ≠ 0 := by omega
  have hW : (emitStep w p).2 =
      pushRing { w with ticks := w.ticks + 1,
                        lastAt := (emitRec w p {}).header.«at»,
                        count := w.count + 1 } (emitRec w p {}) := by
    rw [emitStep, he]
    exact emitWrk_ring w p {} hkne
  refine ⟨by rw [emitStep, he], ?_⟩
  rw [hW]
  set r := emitRec w p {} with hr
  set w1 : Worker := { w with ticks := w.ticks + 1, lastAt := r.header.«at»,
                              count := w.count + 1 } with hw1
  rcases hcase with ⟨hev, hlen, hcur⟩ | ⟨hlen, hcur, hkL, hrot⟩
  · -- filling phase: storage is L, cursor at its end
    have hlt : w1.events.length < w1.max := by
      show w.events.length < w.max
      rw [hev, hmax]; exact hlen
    obtain ⟨e1, e2, e3, e4⟩ := pushRing_fill w1 r hlt
    have e1' : (pushRing w1 r).events = w.events ++ [r] := e1
    have e2' : (pushRing w1 r).cursor = (w.events.length + 1) % w.max := e2
    have e3' : (pushRing w1 r).max = w.max := e3
    have e4' : (pushRing w1 r).enabled = w.enabled := e4
    refine ⟨by rw [e4']; exact hen, by rw [e3']; exact hmax, ?_⟩
    rcases Nat.lt_or_ge (L.length + 1) k with hstill | hfull
    · left
      refine ⟨by rw [e1', hev], by simp [hstill], ?_⟩
      rw [e2', hev, hmax, Nat.mod_eq_of_lt hstill]
      simp
    · have hfe : L.length + 1 = k := by omega
      right
      have hlen1 : (pushRing w1 r).events.length = k := by
        rw [e1', hev]; simp; omega
      have hcur0 : (pushRing w1 r).cursor = 0 := by
        rw [e2', hev, hmax, hfe, Nat.mod_self]
      refine ⟨hlen1, by rw [hcur0]; exact hk, by simp; omega, ?_⟩
      rw [hcur0, e1', hev]
      simp only [List.drop_zero, List.take_zero, List.append_nil]
      rw [lastN_of_le k (L ++ [r]) (by simp; omega)]
  · -- full phase: overwrite at the cursor
    have hnlt : ¬ w1.events.length < w1.max := by
      show ¬ w.events.length < w.max
      rw [hlen, hmax]; omega
    have hcl : w1.cursor < w1.events.length := by
      show w.cursor < w.events.length
      rw [hlen]; exact hmax ▸ hcur
    obtain ⟨e1, e2, e3, e4⟩ := pushRing_over w1 r hnlt hcl
    have e1' : (pushRing w1 r).events = w.events.set w.cursor r := e1
    have e2' : (pushRing w1 r).cursor = (w.cursor + 1) % w.max := e2
    have e3' : (pushRing w1 r).max = w.max := e3
    have e4' : (pushRing w1 r).enabled = w.enabled := e4
    refine ⟨by rw [e4']; exact hen, by rw [e3']; exact hmax, Or.inr ⟨?_, ?_, ?_, ?_⟩⟩
    · rw [e1', List.length_set, hlen]
    · rw [e2', hmax]
      exact Nat.mod_lt _ hk
    · simp; omega
    · have hcl' : w.cursor < w.events.length := hcl
      have hmeq : w.max = w.events.length := by rw [hlen, hmax]
      rw [e1', e2', hmeq, ring_rotate_set w.events w.cursor r hcl', hrot,
          lastN_append_one k L r hk hkL]

lemma ringChron_run (k : ℕ) (hk : 0 < k) (w : Worker) (L : List Record)
    (ps : List Payload) (h : RingChron k w L) :
    RingChron k (runEmits w ps) (L ++ emittedRecords w ps) ∧
    (emittedRecords w ps).length = ps.length := by
  induction ps generalizing w L with
  | nil => simpa [runEmits, emittedRecords] using h
  | cons p rest ih =>
      obtain ⟨h1, h2⟩ := ringChron_step k hk w L p h
      have hrun : runEmits w (p :: rest) = runEmits (emitStep w p).2 rest := by
        simp [runEmits, emitStep]
      have hrec : emittedRecords w (p :: rest) =
          emitRec w p {} :: emittedRecords (emitStep w p).2 rest := by
        rw [emittedRecords]
        rcases hstep : emitStep w p with ⟨r?, w'⟩
        rw [hstep] at h1
        cases hro : r? with
        | none => rw [hro] at h1; cases h1
        | some rr =>
            rw [hro] at h1
            injection h1 with h1
            subst h1
            rfl
      obtain ⟨iha, ihb⟩ := ih (emitStep w p).2 (L ++ [emitRec w p {}]) h2
      constructor
      · rw [hrun, hrec]
        simpa using iha
      · rw [hrec]
        simp [ihb]

lemma except_bind_ok {α β : Type} {e : Except String α} {f : α → Except String β}
    {b : β} (h : e >>= f = .ok b) : ∃ a, e = .ok a ∧ f a = .ok b := by
  cases e with
  | ok a => exact ⟨a, rfl, h⟩
  | error msg => exact absurd h (by simp [Bind.bind, Except.bind])

lemma mkWorker_ok (env : Env) (opts : Opts) (w : Worker)
    (h : mkWorker env opts = .ok w) :
    w.name = (if jsFalsy (opts.name.getD .undefined) then "default"
              else jsToString (opts.name.getD .undefined))
    ∧ normalizeLogMax (opts.max.getD .undefined) = .ok w.max
    ∧ w.enabled = decide (opts.enabled ≠ some (.bool false))
    ∧ w.console = normalizeConsoleLevel (opts.console.getD .undefined)
    ∧ getFunction env (opts.onEvent.getD (.raw .undefined)) "onEvent" = .ok w.onEvent
    ∧ getFunction env (opts.onPrint.getD (.raw .undefined)) "onPrint" = .ok w.onPrint
    ∧ getClock env (opts.clock.getD (.raw .undefined)) = .ok w.clock
    ∧ w.clone = decide (opts.clone = some (.bool true))
    ∧ w.userWorkspace = (match opts.workspace with
        | some wv => resolveWorkspace wv
        | none => [])
    ∧ w.events = [] ∧ w.cursor = 0 ∧ w.count = 0 ∧ w.lastAt = 0 ∧ w.ticks = 0 := by
  unfold mkWorker at h
  obtain ⟨m, hm, h⟩ := except_bind_ok h
  obtain ⟨f1, hf1, h⟩ := except_bind_ok h
  obtain ⟨f2, hf2, h⟩ := except_bind_ok h
  obtain ⟨c, hc, h⟩ := except_bind_ok h
  injection h with h
  subst h
  exact ⟨rfl, hm, rfl, rfl, hf1, hf2, hc, rfl, rfl, rfl, rfl, rfl, rfl, rfl⟩

lemma recPass_trivial : recPass none [] = fun _ => true := by
  funext rec
  simp [recPass]

lemma get_empty (w : Worker) : get w (.obj {}) = .ok (chronList w) := by
  simp [get, buildPreds, recPass_trivial, Bind.bind, Except.bind, pure, Except.pure]

lemma chron_of_ringChron (k : ℕ) (w : Worker) (L : List Record) (hk : 0 < k)
    (h : RingChron k w L) : chronList w = lastN k L := by
  obtain ⟨hen, hmax, hcase⟩ := h
  rcases hcase with ⟨hev, hlen, hcur⟩ | ⟨hlen, hcur, hkL, hrot⟩
  · have hne : ¬ w.events.length = w.max := by rw [hev, hmax]; omega
    rw [chronList, if_neg (by simp [hne]), hev, lastN_of_le k L (by omega)]
  · rw [chronList, if_pos (by simp [hlen, hmax]; omega), hrot]

/-- C2: a stream constructed with a fixed bound `k > 0` whose limit is never
reconfigured returns, after any `N > k` emits, exactly the last `k` emitted
records in emission order. -/
theorem ring_query_keeps_last_k (env : Env) (opts : Opts) (w0 : Worker)
    (k N : ℕ) (ps : List Payload)
    (hmk : mkWorker env opts = .ok w0)
    (hmax : w0.max = k) (hk : 0 < k) (hen : w0.enabled = true)
    (hN : ps.length = N) (_hkN : k < N) :
    get (runEmits w0 ps) (.obj {}) = .ok (lastN k (emittedRecords w0 ps))
    ∧ (emittedRecords w0 ps).length = N := by
  obtain ⟨-, -, -, -, -, -, -, -, -, hev, hcur, -, -, -⟩ := mkWorker_ok env opts w0 hmk
  have h0 : RingChron k w0 [] := ⟨hen, hmax, Or.inl ⟨hev, by simpa using hk, by rw [hcur]; rfl⟩⟩
  obtain ⟨hrun, hlen⟩ := ringChron_run k hk w0 [] ps h0
  rw [List.nil_append] at hrun
  refine ⟨?_, by rw [hlen, hN]⟩
  rw [get_empty, chron_of_ringChron k (runEmits w0 ps) (emittedRecords w0 ps) hk hrun]

/-- C2 witness: limit 2, emits A, B, C — the query returns the last two
records, which carry bodies B and C in this order. -/
theorem ring_query_keeps_last_k_witness :
    (get (runEmits (freshWorker 2) [pA, pB, pC]) (.obj {})
       = .ok (lastN 2 (emittedRecords (freshWorker 2) [pA, pB, pC]))
     ∧ (emittedRecords (freshWorker 2) [pA, pB, pC]).length = 3)
    ∧ (lastN 2 (emittedRecords (freshWorker 2) [pA, pB, pC])).map
        (fun r => bodyGet r.body "value") = [.str "B", .str "C"] :=
  ⟨ring_query_keeps_last_k defaultEnv
      { max := some (.num (.int 2)), clock := some (.fn testClock) }
      (freshWorker 2) 2 3 [pA, pB, pC] rfl rfl (by decide) rfl rfl (by decide),
   by decide⟩
lemma mem_jsArraySet (l : List Record) (i : ℕ) (r : Record) :
    r ∈ jsArraySet l i r := by
  unfold jsArraySet
  split
  · next h => rw [List.set_eq_take_cons_drop r h]; simp
  · simp

lemma emit_stores_record (w : Worker) (p : Payload) (o : EmitOpts)
    (hen : w.enabled = true) :
    (emit w p o).1 = some (emitRec w p o) ∧
    emitRec w p o ∈ (emit w p o).2.events := by
  rw [emit_enabled_eq w p o hen]
  refine ⟨rfl, ?_⟩
  simp only
  by_cases hm : w.max = 0
  · simp [emitWrk, hm, pushUnlimited]
  · by_cases hl : w.events.length < w.max
    · simp [emitWrk, hm, pushRing, hl]
    · simp [emitWrk, hm, pushRing, hl]
      exact mem_jsArraySet _ _ _

lemma emit_hooks_independent (w : Worker) (p : Payload) (o : EmitOpts)
    (h₁ h₂ g₁ g₂ : Option HookFn) :
    (emit { w with onEvent := h₁, onPrint := g₁ } p o).1
      = (emit { w with onEvent := h₂, onPrint := g₂ } p o).1
    ∧ stateOf (emit { w with onEvent := h₁, onPrint := g₁ } p o).2
      = stateOf (emit { w with onEvent := h₂, onPrint := g₂ } p o).2 := by
  by_cases hw : w.enabled = true
  · have e1 : ({ w with onEvent := h₁, onPrint := g₁ } : Worker).enabled = true := hw
    have e2 : ({ w with onEvent := h₂, onPrint := g₂ } : Worker).enabled = true := hw
    rw [emit_enabled_eq _ p o e1, emit_enabled_eq _ p o e2]
    have hrec : emitRec { w with onEvent := h₁, onPrint := g₁ } p o
        = emitRec { w with onEvent := h₂, onPrint := g₂ } p o := rfl
    refine ⟨by rw [hrec], ?_⟩
    simp only
    by_cases hm : w.max = 0 <;> by_cases hl : w.events.length < w.max <;>
      simp [emitWrk, pushRing, pushUnlimited, stateOf, jsArraySet, hm, hl] <;>
      exact ⟨rfl, rfl⟩
  · have hw' : w.enabled = false := by simpa using hw
    have e1 : ({ w with onEvent := h₁, onPrint := g₁ } : Worker).enabled = false := hw'
    have e2 : ({ w with onEvent := h₂, onPrint := g₂ } : Worker).enabled = false := hw'
    rw [emit_disabled _ p o e1, emit_disabled _ p o e2]
    exact ⟨rfl, rfl⟩

lemma buildPreds_cons_fn (key : String) (pr : JSVal → Record → Except Unit Bool)
    (keys : List (String × FilterVal))
    (hk1 : key ≠ "limit") (hk2 : key ≠ "since") :
    buildPreds ((key, .fn pr) :: keys) = predOf key (.fn pr) :: buildPreds keys := by
  simp [buildPreds, hk1, hk2]

lemma get_throwing_pred_empty (w : Worker) (f : Filter) (key : String)
    (pr : JSVal → Record → Except Unit Bool)
    (hk1 : key ≠ "limit") (hk2 : key ≠ "since")
    (hlim : f.limit = none)
    (hpr : ∀ v r, pr v r = .error ()) :
    get w (.obj { f with keys := (key, .fn pr) :: f.keys }) = .ok [] := by
  have hfilter : ∀ (l : List Record) (s : Option JSNum),
      l.filter (recPass s (buildPreds ((key, .fn pr) :: f.keys))) = [] := by
    intro l s
    rw [buildPreds_cons_fn key pr f.keys hk1 hk2]
    rw [List.filter_eq_nil_iff]
    intro rec _
    simp [recPass, predOf, hpr]
  simp [get, hlim, Bind.bind, Except.bind, pure, Except.pure, hfilter]

/-- C5: exceptions from hooks and predicates are contained.  Replacing the
accept-hook and print-hook (throwing ones included) never changes the record
`emit` returns or any non-function field of the resulting state, so the next
emit is unaffected; an enabled `emit` with any hooks still stores and returns
the record; a filter predicate that always throws is a non-match for every
record: `query` returns `.ok []` instead of propagating. -/
theorem hook_errors_contained (w : Worker) (p : Payload) (o : EmitOpts)
    (h₁ h₂ g₁ g₂ : Option HookFn) (key : String) (f : Filter)
    (pr : JSVal → Record → Except Unit Bool)
    (hen : w.enabled = true)
    (hk1 : key ≠ "limit") (hk2 : key ≠ "since") (hlim : f.limit = none)
    (hpr : ∀ v r, pr v r = .error ()) :
    ((emit { w with onEvent := h₁, onPrint := g₁ } p o).1
       = (emit { w with onEvent := h₂, onPrint := g₂ } p o).1
     ∧ stateOf (emit { w with onEvent := h₁, onPrint := g₁ } p o).2
       = stateOf (emit { w with onEvent := h₂, onPrint := g₂ } p o).2)
    ∧ ((emit { w with onEvent := h₁, onPrint := g₁ } p o).1
         = some (emitRec { w with onEvent := h₁, onPrint := g₁ } p o)
       ∧ emitRec { w with onEvent := h₁, onPrint := g₁ } p o
           ∈ (emit { w with onEvent := h₁, onPrint := g₁ } p o).2.events)
    ∧ get w (.obj { f with keys := (key, .fn pr) :: f.keys }) = .ok [] :=
  ⟨emit_hooks_independent w p o h₁ h₂ g₁ g₂,
   emit_stores_record { w with onEvent := h₁, onPrint := g₁ } p o hen,
   get_throwing_pred_empty w f key pr hk1 hk2 hlim hpr⟩

/-- C5 witness: a throwing accept-hook and a throwing print-hook versus no
hooks, and an always-throwing `body.code` predicate, on a fresh worker. -/
theorem hook_errors_contained_witness :
    ((emit { freshWorker 0 with onEvent := some (fun _ _ => .error ()),
                                onPrint := some (fun _ _ => .error ()) } pA {}).1
       = (emit { freshWorker 0 with onEvent := none, onPrint := none } pA {}).1
     ∧ stateOf (emit { freshWorker 0 with
                        onEvent := some (fun _ _ => .error ()),
                        onPrint := some (fun _ _ => .error ()) } pA {}).2
       = stateOf (emit { freshWorker 0 with onEvent := none, onPrint := none } pA {}).2)
    ∧ ((emit { freshWorker 0 with onEvent := some (fun _ _ => .error ()),
                                  onPrint := some (fun _ _ => .error ()) } pA {}).1
         = some (emitRec { freshWorker 0 with
                            onEvent := some (fun _ _ => .error ()),
                            onPrint := some (fun _ _ => .error ()) } pA {})
       ∧ emitRec { freshWorker 0 with
                    onEvent := some (fun _ _ => .error ()),
                    onPrint := some (fun _ _ => .error ()) } pA {}
           ∈ (emit { freshWorker 0 with
                      onEvent := some (fun _ _ => .error ()),
                      onPrint := some (fun _ _ => .error ()) } pA {}).2.events)
    ∧ get (freshWorker 0)
        (.obj { keys := [("body.code", .fn (fun _ _ => .error ()))] }) = .ok [] :=
  hook_errors_contained (freshWorker 0) pA {}
    (some (fun _ _ => .error ())) none (some (fun _ _ => .error ())) none
    "body.code" {} (fun _ _ => .error ())
    rfl (by decide) (by decide) rfl (fun _ _ => rfl)

lemma trim_eq_lastN (l : ℕ) (out : List Record) (hl : 0 < l) :
    (if 0 < l && l < out.length then out.drop (out.length - l) else out)
      = lastN l out := by
  by_cases h : l < out.length
  · rw [if_pos (by simp [hl, h])]
    rfl
  · rw [if_neg (by simp; omega), lastN_of_le l out (by omega)]

/-- C6: full characterization of `query`'s `limit` handling against the
spec-side description `querySpec`: a `limit` whose numeric coercion is not a
non-negative integer throws; `limit = 0` short-circuits to `[]`; a positive
`limit` keeps only the most recent `limit` entries (the tail) of the
chronologically filtered list; no `limit` returns the whole filtered list. -/
theorem query_limit_semantics (w : Worker) (f : Filter) :
    get w (.obj f) = querySpec w f := by
  unfold get querySpec
  cases hl : f.limit with
  | none =>
      simp [hl, Bind.bind, Except.bind, pure, Except.pure]
  | some v =>
      simp only [hl]
      cases hn : jsToNumber v with
      | int q =>
          simp only [hn]
          rcases lt_or_ge q 0 with hq | hq
          · rw [if_pos hq, if_neg (show ¬ (0:ℤ) ≤ q by omega)]
            rfl
          · rw [if_neg (not_lt.mpr hq), if_pos hq]
            simp only [Bind.bind, Except.bind, pure, Except.pure]
            by_cases h0 : q.toNat = 0
            · rw [if_pos (show some q.toNat = some 0 by rw [h0]),
                  if_pos h0]
            · rw [if_neg (by simpa using h0), if_neg h0]
              show Except.ok _ = Except.ok _
              rw [trim_eq_lastN q.toNat _ (by omega)]
      | frac n d => simp [hn, Bind.bind, Except.bind]
      | nan => simp [hn, Bind.bind, Except.bind]
      | posInf => simp [hn, Bind.bind, Except.bind]
      | negInf => simp [hn, Bind.bind, Except.bind]

lemma configure_decomposed (env : Env) (w : Worker) (p : Patch) :
    configure env w (some p) =
      stageMax p (stageEnabled p w) >>= fun w2 =>
      stageOnEvent env p (stageConsole p w2) >>= fun w4 =>
      stageOnPrint env p w4 >>= fun w5 =>
      stageClock env p w5 >>= fun w6 =>
      .ok (stageWs p w6) := by
  cases hm : p.max <;> cases he : p.onEvent <;> cases hp2 : p.onPrint <;>
    cases hc : p.clock <;>
    simp [configure, stageEnabled, stageMax, stageConsole, stageOnEvent,
          stageOnPrint, stageClock, stageWs, hm, he, hp2, hc,
          Bind.bind, Except.bind] <;>
    (repeat' split) <;>
    simp_all [Bind.bind, Except.bind]

lemma stageEnabled_frame (p : Patch) (w : Worker) :
    (stageEnabled p w).max = w.max ∧ (stageEnabled p w).events = w.events ∧
    (stageEnabled p w).cursor = w.cursor ∧
    (stageEnabled p w).console = w.console ∧
    (stageEnabled p w).onEvent = w.onEvent ∧
    (stageEnabled p w).onPrint = w.onPrint ∧
    (stageEnabled p w).clock = w.clock ∧
    (stageEnabled p w).userWorkspace = w.userWorkspace := by
  unfold stageEnabled
  cases p.enabled <;> exact ⟨rfl, rfl, rfl, rfl, rfl, rfl, rfl, rfl⟩

lemma truncate_frame (w : Worker) :
    (truncate w).enabled = w.enabled ∧ (truncate w).console = w.console ∧
    (truncate w).onEvent = w.onEvent ∧ (truncate w).onPrint = w.onPrint ∧
    (truncate w).clock = w.clock ∧
    (truncate w).userWorkspace = w.userWorkspace ∧
    (truncate w).max = w.max ∧ (truncate w).count = w.count ∧
    (truncate w).lastAt = w.lastAt := by
  unfold truncate
  by_cases h0 : w.max = 0
  · simp [h0]
  · by_cases hle : w.events.length ≤ w.max
    · simp [h0, hle]
    · simp [h0, hle]

lemma stageMax_frame (p : Patch) (w w₂ : Worker) (h : stageMax p w = .ok w₂) :
    w₂.enabled = w.enabled ∧ w₂.console = w.console ∧
    w₂.onEvent = w.onEvent ∧ w₂.onPrint = w.onPrint ∧
    w₂.clock = w.clock ∧ w₂.userWorkspace = w.userWorkspace := by
  unfold stageMax at h
  cases hpm : p.max with
  | none =>
      rw [hpm] at h
      injection h with h
      subst h
      exact ⟨rfl, rfl, rfl, rfl, rfl, rfl⟩
  | some v =>
      rw [hpm] at h
      unfold setLogMax at h
      obtain ⟨m, hm, h⟩ := except_bind_ok h
      injection h with h
      subst h
      have ht := truncate_frame { w with max := m }
      exact ⟨ht.1, ht.2.1, ht.2.2.1, ht.2.2.2.1, ht.2.2.2.2.1, ht.2.2.2.2.2.1⟩

lemma stageConsole_frame (p : Patch) (w : Worker) :
    (stageConsole p w).max = w.max ∧ (stageConsole p w).events = w.events ∧
    (stageConsole p w).cursor = w.cursor ∧
    (stageConsole p w).enabled = w.enabled ∧
    (stageConsole p w).onEvent = w.onEvent ∧
    (stageConsole p w).onPrint = w.onPrint ∧
    (stageConsole p w).clock = w.clock ∧
    (stageConsole p w).userWorkspace = w.userWorkspace := by
  unfold stageConsole setConsoleLevel
  cases p.console <;> exact ⟨rfl, rfl, rfl, rfl, rfl, rfl, rfl, rfl⟩

lemma stageOnEvent_frame (env : Env) (p : Patch) (w w₂ : Worker)
    (h : stageOnEvent env p w = .ok w₂) :
    w₂.max = w.max ∧ w₂.events = w.events ∧ w₂.cursor = w.cursor ∧
    w₂.enabled = w.enabled ∧ w₂.console = w.console ∧
    w₂.onPrint = w.onPrint ∧ w₂.clock = w.clock ∧
    w₂.userWorkspace = w.userWorkspace := by
  unfold stageOnEvent at h
  cases hpm : p.onEvent with
  | none =>
      rw [hpm] at h
      injection h with h
      subst h
      exact ⟨rfl, rfl, rfl, rfl, rfl, rfl, rfl, rfl⟩
  | some v =>
      rw [hpm] at h
      obtain ⟨fn, hfn, h⟩ := except_bind_ok h
      injection h with h
      subst h
      exact ⟨rfl, rfl, rfl, rfl, rfl, rfl, rfl, rfl⟩

lemma stageOnPrint_frame (env : Env) (p : Patch) (w w₂ : Worker)
    (h : stageOnPrint env p w = .ok w₂) :
    w₂.max = w.max ∧ w₂.events = w.events ∧ w₂.cursor = w.cursor ∧
    w₂.enabled = w.enabled ∧ w₂.console = w.console ∧
    w₂.onEvent = w.onEvent ∧ w₂.clock = w.clock ∧
    w₂.userWorkspace = w.userWorkspace := by
  unfold stageOnPrint at h
  cases hpm : p.onPrint with
  | none =>
      rw [hpm] at h
      injection h with h
      subst h
      exact ⟨rfl, rfl, rfl, rfl, rfl, rfl, rfl, rfl⟩
  | some v =>
      rw [hpm] at h
      obtain ⟨fn, hfn, h⟩ := except_bind_ok h
      injection h with h
      subst h
      exact ⟨rfl, rfl, rfl, rfl, rfl, rfl, rfl, rfl⟩

lemma stageClock_frame (env : Env) (p : Patch) (w w₂ : Worker)
    (h : stageClock env p w = .ok w₂) :
    w₂.max = w.max ∧ w₂.events = w.events ∧ w₂.cursor = w.cursor ∧
    w₂.enabled = w.enabled ∧ w₂.console = w.console ∧
    w₂.onEvent = w.onEvent ∧ w₂.onPrint = w.onPrint ∧
    w₂.userWorkspace = w.userWorkspace := by
  unfold stageClock at h
  cases hpm : p.clock with
  | none =>
      rw [hpm] at h
      injection h with h
      subst h
      exact ⟨rfl, rfl, rfl, rfl, rfl, rfl, rfl, rfl⟩
  | some v =>
      rw [hpm] at h
      obtain ⟨c, hc, h⟩ := except_bind_ok h
      injection h with h
      subst h
      exact ⟨rfl, rfl, rfl, rfl, rfl, rfl, rfl, rfl⟩

lemma stageWs_frame (p : Patch) (w : Worker) :
    (stageWs p w).max = w.max ∧ (stageWs p w).events = w.events ∧
    (stageWs p w).cursor = w.cursor ∧
    (stageWs p w).enabled = w.enabled ∧
    (stageWs p w).console = w.console ∧
    (stageWs p w).onEvent = w.onEvent ∧
    (stageWs p w).onPrint = w.onPrint ∧
    (stageWs p w).clock = w.clock := by
  unfold stageWs
  cases p.workspace <;> exact ⟨rfl, rfl, rfl, rfl, rfl, rfl, rfl, rfl⟩

lemma stageEnabled_none (p : Patch) (w : Worker) (h : p.enabled = none) :
    stageEnabled p w = w := by
  unfold stageEnabled
  rw [h]

lemma stageMax_none (p : Patch) (w : Worker) (h : p.max = none) :
    stageMax p w = .ok w := by
  unfold stageMax
  rw [h]

lemma stageConsole_none (p : Patch) (w : Worker) (h : p.console = none) :
    stageConsole p w = w := by
  unfold stageConsole
  rw [h]

lemma stageOnEvent_none (env : Env) (p : Patch) (w : Worker)
    (h : p.onEvent = none) : stageOnEvent env p w = .ok w := by
  unfold stageOnEvent
  rw [h]

lemma stageOnPrint_none (env : Env) (p : Patch) (w : Worker)
    (h : p.onPrint = none) : stageOnPrint env p w = .ok w := by
  unfold stageOnPrint
  rw [h]

lemma stageClock_none (env : Env) (p : Patch) (w : Worker)
    (h : p.clock = none) : stageClock env p w = .ok w := by
  unfold stageClock
  rw [h]

lemma stageWs_none (p : Patch) (w : Worker) (h : p.workspace = none) :
    stageWs p w = w := by
  unfold stageWs
  rw [h]

/-- C8: `configure` applies each recognized key only when present: every field
whose key is absent from the patch is left exactly unchanged (even when its
current value is falsy — the statement holds for arbitrary current values),
and a non-object patch is a hard error that changes nothing. -/
theorem configure_presence_frame (env : Env) (w w' : Worker) (p : Patch)
    (h : configure env w (some p) = .ok w') :
    (p.enabled = none → w'.enabled = w.enabled)
    ∧ (p.max = none → w'.max = w.max ∧ w'.events = w.events ∧ w'.cursor = w.cursor)
    ∧ (p.console = none → w'.console = w.console)
    ∧ (p.onEvent = none → w'.onEvent = w.onEvent)
    ∧ (p.onPrint = none → w'.onPrint = w.onPrint)
    ∧ (p.clock = none → w'.clock = w.clock)
    ∧ (p.workspace = none → w'.userWorkspace = w.userWorkspace)
    ∧ configure env w none = .error "[log] Worker.configure expects an object" := by
  rw [configure_decomposed] at h
  obtain ⟨w2, h2, h⟩ := except_bind_ok h
  obtain ⟨w4, h4, h⟩ := except_bind_ok h
  obtain ⟨w5, h5, h⟩ := except_bind_ok h
  obtain ⟨w6, h6, h⟩ := except_bind_ok h
  injection h with h
  subst h
  obtain ⟨m2a, m2b, m2c, m2d, m2e, m2f⟩ := stageMax_frame p (stageEnabled p w) w2 h2
  obtain ⟨e4a, e4b, e4c, e4d, e4e, e4f, e4g, e4h⟩ :=
    stageOnEvent_frame env p (stageConsole p w2) w4 h4
  obtain ⟨p5a, p5b, p5c, p5d, p5e, p5f, p5g, p5h⟩ := stageOnPrint_frame env p w4 w5 h5
  obtain ⟨c6a, c6b, c6c, c6d, c6e, c6f, c6g, c6h⟩ := stageClock_frame env p w5 w6 h6
  obtain ⟨wsa, wsb, wsc, wsd, wse, wsf, wsg, wsh⟩ := stageWs_frame p w6
  obtain ⟨sea, seb, sec, sed, see, sef, seg, seh⟩ := stageEnabled_frame p w
  obtain ⟨sca, scb, scc, scd, sce, scf, scg, sch⟩ := stageConsole_frame p w2
  refine ⟨?_, ?_, ?_, ?_, ?_, ?_, ?_, rfl⟩
  · intro hein
    rw [wsd, c6d, p5d, e4d, scd, m2a, stageEnabled_none p w hein]
  · intro hm
    rw [stageMax_none p _ hm] at h2
    injection h2 with h2
    subst h2
    exact ⟨by rw [wsa, c6a, p5a, e4a, sca, sea],
           by rw [wsb, c6b, p5b, e4b, scb, seb],
           by rw [wsc, c6c, p5c, e4c, scc, sec]⟩
  · intro hc
    rw [wse, c6e, p5e, e4e, stageConsole_none p w2 hc, m2b, sed]
  · intro he
    rw [stageOnEvent_none env p _ he] at h4
    injection h4 with h4
    subst h4
    rw [wsf, c6f, p5f, sce, m2c, see]
  · intro hp
    rw [stageOnPrint_none env p _ hp] at h5
    injection h5 with h5
    subst h5
    rw [wsg, c6g, e4f, scf, m2d, sef]
  · intro hcl
    rw [stageClock_none env p _ hcl] at h6
    injection h6 with h6
    subst h6
    rw [wsh, p5g, e4g, scg, m2e, seg]
  · intro hws
    rw [stageWs_none p w6 hws, c6h, p5h, e4h, sch, m2f, seh]

/-- C8 witness: a patch setting only `enabled` and `console` on a fresh
worker; every other field is untouched. -/
theorem configure_presence_frame_witness :
    (({ enabled := some (.bool false), console := some (.num (.int 7)) } : Patch).max
        = none →
      ({ freshWorker 0 with enabled := false, console := .int 5 } : Worker).max
          = (freshWorker 0).max
      ∧ ({ freshWorker 0 with enabled := false, console := .int 5 } : Worker).events
          = (freshWorker 0).events
      ∧ ({ freshWorker 0 with enabled := false, console := .int 5 } : Worker).cursor
          = (freshWorker 0).cursor)
    ∧ configure defaultEnv (freshWorker 0) none
        = .error "[log] Worker.configure expects an object" :=
  ⟨((configure_presence_frame defaultEnv (freshWorker 0)
      { freshWorker 0 with enabled := false, console := .int 5 }
      { enabled := some (.bool false), console := some (.num (.int 7)) }
      rfl).2.1),
   (configure_presence_frame defaultEnv (freshWorker 0)
      { freshWorker 0 with enabled := false, console := .int 5 }
      { enabled := some (.bool false), console := some (.num (.int 7)) }
      rfl).2.2.2.2.2.2.2⟩

/-- C9 (counterexample): constructing a Worker with an invalid stream-name
(an empty or whitespace-only string — values `validateBucketName` rejects)
does NOT fail with an InvalidName error: the constructor coerces the name via
`String(opts.name || "default")`, yielding "default" for the empty string and
the unchanged whitespace string otherwise. -/
theorem invalid_name_not_rejected :
    validateBucketName (.str "") true
      = .error "bucket name must be a non-empty string or finite number"
    ∧ validateBucketName (.str "   ") true
      = .error "bucket name must be a non-empty string or finite number"
    ∧ mkWorker defaultEnv { name := some (.str "") } = .ok (freshWorker 0)
    ∧ (freshWorker 0).name = "default"
    ∧ mkWorker defaultEnv { name := some (.str "   ") }
        = .ok { freshWorker 0 with name := "   " } :=
  ⟨by decide, by decide, rfl, rfl, rfl⟩

/-- C9 (amended claim): construction passes `limit`, console policy, the two
hooks, and the clock through their Policy Normalizers, and resolves the
enabled flag, clone flag and workspace as the source does — but the `name`
option is only coerced (`String(opts.name || "default")`), never validated:
no InvalidName error is raised by the Stream constructor. -/
theorem construction_uses_normalizers (env : Env) (opts : Opts) (w : Worker)
    (h : mkWorker env opts = .ok w) :
    w.name = (if jsFalsy (opts.name.getD .undefined) then "default"
              else jsToString (opts.name.getD .undefined))
    ∧ normalizeLogMax (opts.max.getD .undefined) = .ok w.max
    ∧ w.enabled = decide (opts.enabled ≠ some (.bool false))
    ∧ w.console = normalizeConsoleLevel (opts.console.getD .undefined)
    ∧ getFunction env (opts.onEvent.getD (.raw .undefined)) "onEvent" = .ok w.onEvent
    ∧ getFunction env (opts.onPrint.getD (.raw .undefined)) "onPrint" = .ok w.onPrint
    ∧ getClock env (opts.clock.getD (.raw .undefined)) = .ok w.clock
    ∧ w.clone = decide (opts.clone = some (.bool true))
    ∧ w.userWorkspace = (match opts.workspace with
        | some wv => resolveWorkspace wv
        | none => [])
    ∧ w.events = [] ∧ w.cursor = 0 ∧ w.count = 0 ∧ w.lastAt = 0 ∧ w.ticks = 0 :=
  mkWorker_ok env opts w h

/-- C9 witness: concrete construction with a whitespace-only name and an
explicit limit. -/
theorem construction_uses_normalizers_witness :
    ({ freshWorker 3 with name := "   " } : Worker).name
      = (if jsFalsy ((some (JSVal.str "   ")).getD .undefined) then "default"
         else jsToString ((some (JSVal.str "   ")).getD .undefined))
    ∧ normalizeLogMax ((some (JSVal.num (.int 3))).getD .undefined)
        = .ok ({ freshWorker 3 with name := "   " } : Worker).max
    ∧ ({ freshWorker 3 with name := "   " } : Worker).events = [] :=
  by
    have h := construction_uses_normalizers defaultEnv
      { name := some (.str "   "), max := some (.num (.int 3)),
        clock := some (.fn testClock) }
      { freshWorker 3 with name := "   " } rfl
    exact ⟨h.1, h.2.1, h.2.2.2.2.2.2.2.2.2.1⟩

end M7Log
